import Mathlib

/-!
# Verification of the query-plan decorrelation engine

A shallow embedding of the Rust sources `main.rs`, `query_tree.rs` and
`unnesting.rs` of the `query_unnesting` crate, together with theorems settling
the specification claims about it.

Modelling conventions:
* `HashSet`/`HashMap` values are modelled as lists / association lists; the
  only observations the source performs on them are membership, lookup,
  insertion and iteration, and all iteration orders that are arbitrary in
  Rust are fixed here to the construction order.
* The global mutable id counter behind `get_next_id` is threaded explicitly:
  a function that may mint ids takes the current counter value and returns
  the updated one.  `get_next_id` first increments and then returns the
  counter, so with current value `c` the minted id is `c + 1`.
* The `tree : &QueryTree` parameter of `process_node` is never read by the
  Rust code (it is only passed along recursively), so it is omitted here.
-/

namespace Unnesting

/-- Node identifiers (`type NodeId = usize` in `main.rs`). -/
abbrev NodeId := Nat

/-- `Column` from `main.rs`: a `(table, name)` pair, value-equal. -/
structure Column where
  table : String
  name : String
deriving DecidableEq

/-- `Column::new` from `main.rs`. -/
def Column.new (table name : String) : Column := ⟨table, name⟩

/-- The expression model `Expr` from `main.rs`. -/
inductive Expr where
  | ColumnRef (c : Column)
  | Constant (v : String)
  | Equal (l r : Expr)
  | And (l r : Expr)
  | GreaterThan (l r : Expr)
  | Count
  | Sum (e : Expr)
deriving DecidableEq

/-- The plan-node model `RelNode` from `main.rs`. -/
inductive RelNode where
  | Table (id : NodeId) (name : String) (columns : List String)
  | Select (id : NodeId) (predicate : Expr) (input : RelNode)
  | Map (id : NodeId) (mappings : List (Column × Expr)) (input : RelNode)
  | GroupBy (id : NodeId) (keys : List Column) (aggregates : List (Column × Expr))
      (input : RelNode)
  | Join (id : NodeId) (left right : RelNode) (condition : Expr)
      (is_dependent : Bool) (accessing : List NodeId)
deriving DecidableEq

/-- `RelNode::id` from `main.rs`. -/
def RelNode.id : RelNode → NodeId
  | .Table i _ _ => i
  | .Select i _ _ => i
  | .Map i _ _ => i
  | .GroupBy i _ _ _ => i
  | .Join i _ _ _ _ _ => i

/-- `RelNode::is_dependent_join` from `main.rs`. -/
def RelNode.is_dependent_join : RelNode → Bool
  | .Join _ _ _ _ d _ => d
  | _ => false

/-- Insertion into a `HashSet<Column>` modelled as a duplicate-free list. -/
def insertCol (s : List Column) (c : Column) : List Column :=
  if c ∈ s then s else s ++ [c]

/-- `HashSet::extend` on column sets: fold the second set into the first. -/
def unionCols (s t : List Column) : List Column :=
  t.foldl insertCol s

/-- Insertion into a `HashSet<NodeId>` modelled as a duplicate-free list. -/
def insertId (s : List NodeId) (i : NodeId) : List NodeId :=
  if i ∈ s then s else s ++ [i]

/-- `HashMap::get` on an association list (first matching key). -/
def alookup {β : Type} : List (Column × β) → Column → Option β
  | [], _ => none
  | (k, v) :: rest, c => if k = c then some v else alookup rest c

/-- `get_expr_columns` from `unnesting.rs` (the result is a set). -/
def get_expr_columns : Expr → List Column
  | .ColumnRef c => [c]
  | .Equal l r => unionCols (get_expr_columns l) (get_expr_columns r)
  | .And l r => unionCols (get_expr_columns l) (get_expr_columns r)
  | .GreaterThan l r => unionCols (get_expr_columns l) (get_expr_columns r)
  | .Sum e => get_expr_columns e
  | _ => []

/-- `get_node_produced_columns` from `unnesting.rs`. -/
def get_node_produced_columns : RelNode → List Column
  | .Table _ name columns =>
      columns.foldl (fun s cn => insertCol s (Column.new name cn)) []
  | .Map _ mappings input =>
      mappings.foldl (fun s p => insertCol s p.1) (get_node_produced_columns input)
  | .Select _ _ input => get_node_produced_columns input
  | .GroupBy _ keys aggregates _ =>
      aggregates.foldl (fun s p => insertCol s p.1) (keys.foldl insertCol [])
  | .Join _ left right _ _ _ =>
      unionCols (get_node_produced_columns left) (get_node_produced_columns right)

/-- Decidable column-set membership used where Rust calls `HashSet::contains`. -/
def elemCol (c : Column) (s : List Column) : Bool := decide (c ∈ s)

/-- `get_node_free_variables` from `unnesting.rs`: columns referenced by a
node's own expressions (or a descendant's) that its input does not produce. -/
def get_node_free_variables : RelNode → List Column
  | .Select _ predicate input =>
      let inputCols := get_node_produced_columns input
      unionCols ((get_expr_columns predicate).filter (fun c => !elemCol c inputCols))
        (get_node_free_variables input)
  | .Map _ mappings input =>
      let inputCols := get_node_produced_columns input
      unionCols
        (mappings.foldl
          (fun s p => unionCols s ((get_expr_columns p.2).filter (fun c => !elemCol c inputCols)))
          [])
        (get_node_free_variables input)
  | .GroupBy _ _ aggregates input =>
      let inputCols := get_node_produced_columns input
      unionCols
        (aggregates.foldl
          (fun s p => unionCols s ((get_expr_columns p.2).filter (fun c => !elemCol c inputCols)))
          [])
        (get_node_free_variables input)
  | .Join _ left right condition _ _ =>
      let leftCols := get_node_produced_columns left
      let rightCols := get_node_produced_columns right
      unionCols
        (unionCols
          ((get_expr_columns condition).filter
            (fun c => !elemCol c leftCols && !elemCol c rightCols))
          (get_node_free_variables left))
        (get_node_free_variables right)
  | .Table _ _ _ => []

/-- `find_correlation` from `unnesting.rs`. -/
def find_correlation (left right : RelNode) : List Column × List Column :=
  (get_node_produced_columns left, get_node_free_variables right)

/-- `find_node_by_id_mut` from `unnesting.rs`: preorder search for a node id. -/
def find_node_by_id_mut : RelNode → NodeId → Option RelNode
  | n@(.Table _ _ _), i => if n.id = i then some n else none
  | n@(.Select _ _ input), i =>
      if n.id = i then some n else find_node_by_id_mut input i
  | n@(.Map _ _ input), i =>
      if n.id = i then some n else find_node_by_id_mut input i
  | n@(.GroupBy _ _ _ input), i =>
      if n.id = i then some n else find_node_by_id_mut input i
  | n@(.Join _ left right _ _ _), i =>
      if n.id = i then some n
      else
        match find_node_by_id_mut left i with
        | some r => some r
        | none => find_node_by_id_mut right i

/-- The predicate-collection loop of `try_simple_unnesting`: returns `none` as
soon as some accessing id resolves to a non-`Select` node (`all_predicates =
false` with `break` in the Rust loop), skips ids that are not found, and
otherwise returns the collected predicates in accessing order. -/
def collect_predicates (node : RelNode) : List NodeId → Option (List Expr)
  | [] => some []
  | accId :: rest =>
      match find_node_by_id_mut node accId with
      | some (.Select _ predicate _) =>
          (collect_predicates node rest).map (fun ps => predicate :: ps)
      | some _ => none
      | none => collect_predicates node rest

/-- `try_simple_unnesting` from `unnesting.rs`.  The Rust function mutates the
join condition in place and returns a `bool`; here success returns
`some newCondition` and failure returns `none` (condition untouched). -/
def try_simple_unnesting (node : RelNode) (accessing : List NodeId)
    (condition : Expr) : Option Expr :=
  match collect_predicates node accessing with
  | some predicates =>
      if predicates.isEmpty then none
      else some (predicates.foldl (fun c p => Expr.And c p) condition)
  | none => none

/-- `UnnestingInfo` from `unnesting.rs`.  An inductive (not a structure)
because the `parent` back-link makes the type recursive. -/
inductive UnnestingInfo where
  | mk (outer_refs : List Column) (domain : Option RelNode)
      (cclasses : List (Column × List Column))
      (repr : List (Column × Column))
      (parent : Option UnnestingInfo)

def UnnestingInfo.outer_refs : UnnestingInfo → List Column
  | .mk o _ _ _ _ => o

def UnnestingInfo.domain : UnnestingInfo → Option RelNode
  | .mk _ d _ _ _ => d

def UnnestingInfo.cclasses : UnnestingInfo → List (Column × List Column)
  | .mk _ _ cc _ _ => cc

def UnnestingInfo.repr : UnnestingInfo → List (Column × Column)
  | .mk _ _ _ rp _ => rp

def UnnestingInfo.parent : UnnestingInfo → Option UnnestingInfo
  | .mk _ _ _ _ p => p

/-- `UnnestingInfo::new`. -/
def UnnestingInfo.new (outer_refs : List Column) (domain : Option RelNode) :
    UnnestingInfo :=
  .mk outer_refs domain [] [] none

/-- `UnnestingInfo::with_parent`. -/
def UnnestingInfo.with_parent : UnnestingInfo → UnnestingInfo → UnnestingInfo
  | .mk o d cc rp _, parent => .mk o d cc rp (some parent)

/-- Replace the equivalence classes of an info (the Rust code mutates the
`cclasses` field in place). -/
def UnnestingInfo.with_cclasses : UnnestingInfo → List (Column × List Column) →
    UnnestingInfo
  | .mk o d _ rp par, cc => .mk o d cc rp par

/-- `entry(col).or_insert_with(HashSet::new).extend(vs)` on the equivalence
classes: extend the class of `c` with `vs`, creating it if absent. -/
def addToClass (cc : List (Column × List Column)) (c : Column) (vs : List Column) :
    List (Column × List Column) :=
  match cc with
  | [] => [(c, unionCols [] vs)]
  | (k, ex) :: rest =>
      if k = c then (k, unionCols ex vs) :: rest else (k, ex) :: addToClass rest c vs

/-- `UnnestingInfo::merge_equivalence_classes`. -/
def merge_equivalence_classes (self other : UnnestingInfo) : UnnestingInfo :=
  self.with_cclasses
    (other.cclasses.foldl (fun cc p => addToClass cc p.1 p.2) self.cclasses)

/-- One iteration of the `create_replacement_mappings` loop: skip an already
resolved column, otherwise record the first member of its equivalence class
that is currently available. -/
def replacement_step (cc : List (Column × List Column))
    (available_columns : List Column) (r : List (Column × Column))
    (col : Column) : List (Column × Column) :=
  if (alookup r col).isSome then r
  else
    match alookup cc col with
    | some equivalents =>
        match equivalents.find? (fun e => elemCol e available_columns) with
        | some e => r ++ [(col, e)]
        | none => r
    | none => r

/-- `UnnestingInfo::create_replacement_mappings`: for each still-unresolved
outer reference, record the first member of its equivalence class that is
currently available. -/
def create_replacement_mappings (info : UnnestingInfo)
    (available_columns : List Column) : UnnestingInfo :=
  match info with
  | .mk o d cc rp par =>
      .mk o d cc (o.foldl (replacement_step cc available_columns) rp) par

/-- `add_equivalences_from_expr` from `unnesting.rs`. -/
def add_equivalences_from_expr : Expr → List (Column × List Column) →
    List (Column × List Column)
  | .Equal (.ColumnRef lc) (.ColumnRef rc), cc =>
      addToClass (addToClass cc lc [rc]) rc [lc]
  | .Equal _ _, cc => cc
  | .And l r, cc => add_equivalences_from_expr r (add_equivalences_from_expr l cc)
  | _, cc => cc

/-- `rewrite_expr` from `unnesting.rs`. -/
def rewrite_expr (e : Expr) (rp : List (Column × Column)) : Expr :=
  match e with
  | .ColumnRef c =>
      match alookup rp c with
      | some nc => .ColumnRef nc
      | none => .ColumnRef c
  | .Equal l r => .Equal (rewrite_expr l rp) (rewrite_expr r rp)
  | .And l r => .And (rewrite_expr l rp) (rewrite_expr r rp)
  | .GreaterThan l r => .GreaterThan (rewrite_expr l rp) (rewrite_expr r rp)
  | .Sum inner => .Sum (rewrite_expr inner rp)
  | e => e

/-- `create_domain_node` from `unnesting.rs`.  The Rust function calls the
global `get_next_id`; the freshly minted id is passed explicitly here. -/
def create_domain_node (left : RelNode) (outer_refs : List Column)
    (id : NodeId) : RelNode :=
  RelNode.Map id (outer_refs.map (fun col => (col, Expr.ColumnRef col))) left

/-- `create_domain_join_condition` from `unnesting.rs`: conjoin
`outer = resolved` for every RESOLVED outer reference; unresolved outer
references are silently skipped by the `if let Some` in the loop. -/
def create_domain_join_condition (outer_refs : List Column)
    (rp : List (Column × Column)) : Expr :=
  outer_refs.foldl
    (fun cond outerCol =>
      match alookup rp outerCol with
      | some newCol =>
          Expr.And cond (Expr.Equal (Expr.ColumnRef outerCol) (Expr.ColumnRef newCol))
      | none => cond)
    (Expr.Constant "true")

/-- `merge_unnesting_info` from `unnesting.rs`. -/
def merge_unnesting_info (left right : UnnestingInfo) : UnnestingInfo :=
  if left.outer_refs.isEmpty then right
  else if right.outer_refs.isEmpty then left
  else
    match left with
    | .mk o d cc rp par =>
        let cc2 := right.cclasses.foldl (fun acc p => addToClass acc p.1 p.2) cc
        let rp2 := right.repr.foldl
          (fun acc p => if (alookup acc p.1).isSome then acc else acc ++ [p]) rp
        .mk o d cc2 rp2 par

/-- `decorrelate_node` from `unnesting.rs`: the source comments note it should
recursively transform the subtree but it only returns a clone of the node. -/
def decorrelate_node (node : RelNode) (_info : UnnestingInfo) : RelNode := node

/-- The key-substitution loop of the `GroupBy` arm of `process_node`. -/
def substitute_keys (keys : List Column) (rp : List (Column × Column)) :
    List Column :=
  keys.map (fun key =>
    match alookup rp key with
    | some newKey => newKey
    | none => key)

/-- One iteration of the key-appending loop of the `GroupBy` arm of
`process_node`: append the resolved substitute of an outer reference to the
key list unless it is already a key. -/
def resolved_key_step (rp : List (Column × Column)) (ks : List Column)
    (col : Column) : List Column :=
  match alookup rp col with
  | some newCol => if newCol ∈ ks then ks else ks ++ [newCol]
  | none => ks

/-- The key-appending loop of the `GroupBy` arm of `process_node`: every
resolved outer reference is appended to the key list if not already present. -/
def append_resolved_keys (outer_refs : List Column) (rp : List (Column × Column))
    (keys : List Column) : List Column :=
  outer_refs.foldl (resolved_key_step rp) keys

/-- The final loop of the dependent-join arm of `process_node`: insert the
resolved substitute of every outer reference into the available columns. -/
def insert_resolved_columns (outer_refs : List Column)
    (rp : List (Column × Column)) (available : List Column) : List Column :=
  outer_refs.foldl
    (fun acc col =>
      match alookup rp col with
      | some newCol => insertCol acc newCol
      | none => acc)
    available

/-- `process_node` from `unnesting.rs`.  Signature: the Rust function mutates
`node` and `available_columns` in place and reads the global id counter; here
it maps `(node, parent_info, available_columns, counter)` to the rewritten
node, the returned `UnnestingInfo`, the updated available columns and the
updated counter. -/
def process_node : RelNode → Option UnnestingInfo → List Column → Nat →
    RelNode × UnnestingInfo × List Column × Nat
  | .Join id left right condition is_dep accessing, parent_info, available, c =>
      if is_dep && !accessing.isEmpty then
        match try_simple_unnesting right accessing condition with
        | some newCondition =>
            -- simple unnesting succeeded: clear the flag and the accessing set,
            -- then recurse into both children.
            let L := process_node left parent_info available c
            let R := process_node right parent_info available L.2.2.2
            (RelNode.Join id L.1 R.1 newCondition false [],
              merge_unnesting_info L.2.1 R.2.1,
              unionCols R.2.2.1 L.2.2.1,
              R.2.2.2)
        | none =>
            -- general decorrelation.  The left child is processed only when an
            -- enclosing context exists (the `if let Some(parent)` block).
            let step :=
              match parent_info with
              | some parent =>
                  let L := process_node left (some parent) available c
                  (L.1, unionCols available L.2.2.1, L.2.2.2)
              | none => (left, available, c)
            let left2 := step.1
            let avail1 := step.2.1
            let c1 := step.2.2
            let corr := find_correlation left2 right
            let outer_refs := corr.1.filter (fun col => elemCol col corr.2)
            let dm : Option RelNode × Nat :=
              if outer_refs.isEmpty then (none, c1)
              else (some (create_domain_node left2 outer_refs (c1 + 1)), c1 + 1)
            let info0 := UnnestingInfo.new outer_refs dm.1
            let info1 :=
              match parent_info with
              | some parent => info0.with_parent parent
              | none => info0
            let info2 := info1.with_cclasses
              (add_equivalences_from_expr condition info1.cclasses)
            let R := process_node right (some info2) avail1 dm.2
            let info3 := create_replacement_mappings info2 R.2.2.1
            let condition2 := rewrite_expr condition info3.repr
            let right2 := decorrelate_node R.1 info3
            let fin : RelNode × Nat :=
              match info3.domain with
              | some domainNode =>
                  (RelNode.Join (R.2.2.2 + 1) domainNode right2
                    (create_domain_join_condition info3.outer_refs info3.repr)
                    false [],
                   R.2.2.2 + 1)
              | none => (right2, R.2.2.2)
            let avail3 := insert_resolved_columns outer_refs info3.repr R.2.2.1
            (RelNode.Join id left2 fin.1 condition2 false [], info3, avail3, fin.2)
      else
        -- independent join, or dependent join with empty accessing set: the
        -- dependence flag and the accessing set are NOT touched here.
        let L := process_node left parent_info available c
        let R := process_node right parent_info available L.2.2.2
        let merged := merge_unnesting_info L.2.1 R.2.1
        (RelNode.Join id L.1 R.1 (rewrite_expr condition merged.repr) is_dep accessing,
          merged,
          unionCols R.2.2.1 L.2.2.1,
          R.2.2.2)
  | .Select id predicate input, parent_info, available, c =>
      let info0 :=
        match parent_info with
        | some parent => parent
        | none => UnnestingInfo.new [] none
      let info1 := info0.with_cclasses
        (add_equivalences_from_expr predicate info0.cclasses)
      let R := process_node input (some info1) available c
      let info2 := merge_equivalence_classes info1 R.2.1
      let info3 := create_replacement_mappings info2 R.2.2.1
      (RelNode.Select id (rewrite_expr predicate info3.repr) R.1,
        info3, R.2.2.1, R.2.2.2)
  | .Map id mappings input, parent_info, available, c =>
      let R := process_node input parent_info available c
      let info0 :=
        match parent_info with
        | some parent => parent
        | none => R.2.1
      let info1 := create_replacement_mappings info0 R.2.2.1
      let mappings2 := mappings.map (fun p => (p.1, rewrite_expr p.2 info1.repr))
      let avail2 := mappings2.foldl (fun a p => insertCol a p.1) R.2.2.1
      (RelNode.Map id mappings2 R.1, info1, avail2, R.2.2.2)
  | .GroupBy id keys aggregates input, parent_info, available, c =>
      let info0 :=
        match parent_info with
        | some parent => parent
        | none => UnnestingInfo.new [] none
      let R := process_node input (some info0) available c
      let info1 := merge_equivalence_classes info0 R.2.1
      let info2 := create_replacement_mappings info1 R.2.2.1
      let keys1 := substitute_keys keys info2.repr
      let aggregates2 := aggregates.map (fun p => (p.1, rewrite_expr p.2 info2.repr))
      let keys2 := append_resolved_keys info2.outer_refs info2.repr keys1
      let avail2 := aggregates2.foldl (fun a p => insertCol a p.1)
        (keys2.foldl insertCol [])
      (RelNode.GroupBy id keys2 aggregates2 R.1, info2, avail2, R.2.2.2)
  | .Table id name columns, parent_info, available, c =>
      let produced := get_node_produced_columns (RelNode.Table id name columns)
      let avail2 := unionCols available produced
      (RelNode.Table id name columns,
        (match parent_info with
         | some parent => parent
         | none => UnnestingInfo.new [] none),
        avail2, c)

/-! ## The query-tree index (`query_tree.rs`) and `unnest_query` (`main.rs`) -/

/-- `collect_columns_from_expr` from `main.rs` (inserts into a column set). -/
def collect_columns_from_expr : Expr → List Column → List Column
  | .ColumnRef col, s => insertCol s col
  | .Constant _, s => s
  | .Count, s => s
  | .Equal l r, s => collect_columns_from_expr r (collect_columns_from_expr l s)
  | .And l r, s => collect_columns_from_expr r (collect_columns_from_expr l s)
  | .GreaterThan l r, s => collect_columns_from_expr r (collect_columns_from_expr l s)
  | .Sum e, s => collect_columns_from_expr e s

/-- `RelNode::get_accessed_columns` from `main.rs`: the columns appearing in a
node's own expressions. -/
def get_accessed_columns : RelNode → List Column
  | .Table _ _ _ => []
  | .Select _ predicate _ => collect_columns_from_expr predicate []
  | .Map _ mappings _ =>
      mappings.foldl (fun s p => collect_columns_from_expr p.2 s) []
  | .GroupBy _ keys aggregates _ =>
      aggregates.foldl (fun s p => collect_columns_from_expr p.2 s)
        (keys.foldl insertCol [])
  | .Join _ _ _ condition _ _ => collect_columns_from_expr condition []

/-- The `(column, id)` insertions performed by `collect_column_providers`
(`query_tree.rs`), in the order `build_maps` performs them: each node's own
insertions first, then the children's, preorder. -/
def provider_insertions : RelNode → List (Column × NodeId)
  | .Table id name columns => columns.map (fun cn => (Column.new name cn, id))
  | .Select _ _ input => provider_insertions input
  | .Map id mappings input =>
      mappings.map (fun p => (p.1, id)) ++ provider_insertions input
  | .GroupBy id keys aggregates input =>
      keys.map (fun k => (k, id)) ++ aggregates.map (fun p => (p.1, id))
        ++ provider_insertions input
  | .Join _ left right _ _ _ =>
      provider_insertions left ++ provider_insertions right

/-- The `column_providers` map of `QueryTree`, built by replaying the
insertions of `build_maps` into a `HashMap` (later insertions overwrite). -/
def build_column_providers (t : RelNode) : Column → Option NodeId :=
  (provider_insertions t).foldl
    (fun m p => fun col => if col = p.1 then some p.2 else m col)
    (fun _ => none)

/-- The `(child id, parent id)` insertions into `parent_map`, in `build_maps`
order (preorder). -/
def parent_insertions : RelNode → List (NodeId × NodeId)
  | .Table _ _ _ => []
  | .Select id _ input => (input.id, id) :: parent_insertions input
  | .Map id _ input => (input.id, id) :: parent_insertions input
  | .GroupBy id _ _ input => (input.id, id) :: parent_insertions input
  | .Join id left right _ _ _ =>
      ((left.id, id) :: parent_insertions left)
        ++ ((right.id, id) :: parent_insertions right)

/-- The `parent_map` of `QueryTree` as a `HashMap` (later insertions win). -/
def build_parent_map (t : RelNode) : NodeId → Option NodeId :=
  (parent_insertions t).foldl
    (fun m p => fun i => if i = p.1 then some p.2 else m i)
    (fun _ => none)

/-- The `(id, subtree)` pairs inserted into `node_map` by `build_maps`, in
insertion order (preorder). -/
def subtrees_list : RelNode → List (NodeId × RelNode)
  | .Table id name columns => [(id, .Table id name columns)]
  | .Select id p input => (id, .Select id p input) :: subtrees_list input
  | .Map id m input => (id, .Map id m input) :: subtrees_list input
  | .GroupBy id k a input => (id, .GroupBy id k a input) :: subtrees_list input
  | .Join id l r c d acc =>
      (id, .Join id l r c d acc) :: (subtrees_list l ++ subtrees_list r)

/-- A `node_map` cell.  `build_maps` stores the root's own `Rc` in the map (an
alias of `tree.root`), while every non-root node is wrapped in a freshly
created `Rc<RefCell>` holding an independent copy of its subtree. -/
inductive Cell where
  | aliasRoot
  | snap (n : RelNode)

/-- The `node_map` of `QueryTree`: the root id maps to the shared root cell,
every other id to an independent snapshot of its subtree (later insertions
overwrite earlier ones, as in a `HashMap`). -/
def build_cells (t : RelNode) : NodeId → Option Cell :=
  ((t.id, Cell.aliasRoot) ::
      ((subtrees_list t).drop 1).map (fun p => (p.1, Cell.snap p.2))).foldl
    (fun m p => fun i => if i = p.1 then some p.2 else m i)
    (fun _ => none)

/-- `QueryTree` from `query_tree.rs`.  `node_list` records the map entries for
iteration (`identify_dependent_joins` iterates `node_map` before any mutation,
when every cell still holds the pristine subtree snapshot); `size` bounds the
length of any parent chain and serves as fuel for the ancestor walks. -/
structure QueryTree where
  root : RelNode
  cells : NodeId → Option Cell
  node_list : List (NodeId × RelNode)
  column_providers : Column → Option NodeId
  parent_map : NodeId → Option NodeId
  size : Nat

/-- `QueryTree::new`. -/
def QueryTree.new (root : RelNode) : QueryTree :=
  { root := root
    cells := build_cells root
    node_list := subtrees_list root
    column_providers := build_column_providers root
    parent_map := build_parent_map root
    size := (subtrees_list root).length }

/-- `QueryTree::find_node`: reading a cell.  The root cell aliases `root`. -/
def QueryTree.find_node (qt : QueryTree) (i : NodeId) : Option RelNode :=
  match qt.cells i with
  | some .aliasRoot => some qt.root
  | some (.snap n) => some n
  | none => none

/-- Writing through `find_node(i).borrow_mut()`: a write to the root cell is
visible through `root`; a write to any other cell only changes that snapshot. -/
def QueryTree.mutate_node (qt : QueryTree) (i : NodeId) (f : RelNode → RelNode) :
    QueryTree :=
  match qt.cells i with
  | some .aliasRoot => { qt with root := f qt.root }
  | some (.snap n) =>
      { qt with cells := fun j => if j = i then some (.snap (f n)) else qt.cells j }
  | none => qt

/-- The ancestor-set accumulation of `find_lca` (walk `parent_map` upward from
a node, collecting every id on the chain).  `fuel` bounds the walk; with fuel
at least the number of map entries it is exact for acyclic parent maps. -/
def ancestors_from (pm : NodeId → Option NodeId) : Nat → NodeId → List NodeId
  | 0, cur => [cur]
  | fuel + 1, cur =>
      cur ::
        (match pm cur with
         | some parent => ancestors_from pm fuel parent
         | none => [])

/-- The second walk of `find_lca`: climb from `cur` until a member of the
ancestor set is hit. -/
def walk_up (pm : NodeId → Option NodeId) (anc : List NodeId) :
    Nat → NodeId → Option NodeId
  | 0, _ => none
  | fuel + 1, cur =>
      match pm cur with
      | some parent =>
          if parent ∈ anc then some parent else walk_up pm anc fuel parent
      | none => none

/-- `QueryTree::find_lca`. -/
def QueryTree.find_lca (qt : QueryTree) (node1 node2 : NodeId) : Option NodeId :=
  let anc := ancestors_from qt.parent_map qt.size node1
  if node2 ∈ anc then some node2 else walk_up qt.parent_map anc qt.size node2

/-- The parent-chain loop of `is_descendant_of`. -/
def descend_loop (pm : NodeId → Option NodeId) : Nat → NodeId → NodeId → Bool
  | 0, _, _ => false
  | fuel + 1, cur, anc =>
      match pm cur with
      | some parent =>
          if parent = anc then true else descend_loop pm fuel parent anc
      | none => false

/-- `QueryTree::is_descendant_of` (reflexive). -/
def QueryTree.is_descendant_of (qt : QueryTree) (node anc : NodeId) : Bool :=
  if node = anc then true else descend_loop qt.parent_map qt.size node anc

/-- `QueryTree::is_in_left_subtree`. -/
def QueryTree.is_in_left_subtree (qt : QueryTree) (node join : NodeId) : Bool :=
  match qt.find_node join with
  | some (.Join _ left _ _ _ _) => qt.is_descendant_of node left.id
  | _ => false

/-- `QueryTree::identify_dependent_joins`: for every node and every accessed
column with a different producer, record `(lca, accessor)` when the producer
lies in the LCA's left subtree. -/
def QueryTree.identify_dependent_joins (qt : QueryTree) : List (NodeId × NodeId) :=
  qt.node_list.flatMap (fun p =>
    (get_accessed_columns p.2).filterMap (fun col =>
      match qt.column_providers col with
      | some providerId =>
          if providerId ≠ p.1 then
            match qt.find_lca p.1 providerId with
            | some lcaId =>
                if qt.is_in_left_subtree providerId lcaId then some (lcaId, p.1)
                else none
            | none => none
          else none
      | none => none))

/-- The per-join mutation of `apply_dependencies`: union the accessing ids
into the accessing set, but only if the join is already marked dependent. -/
def apply_dependency_update (ids : List NodeId) : RelNode → RelNode
  | .Join id l r cond true acc => .Join id l r cond true (ids.foldl insertId acc)
  | other => other

/-- `QueryTree::apply_dependencies`: group the recorded pairs by LCA id and
mutate each LCA node through `find_node`. -/
def QueryTree.apply_dependencies (qt : QueryTree)
    (relations : List (NodeId × NodeId)) : QueryTree :=
  let lcas := (relations.map (fun p => p.1)).foldl insertId []
  lcas.foldl
    (fun q lca =>
      let ids := (relations.filter (fun p => decide (p.1 = lca))).map (fun p => p.2)
      q.mutate_node lca (apply_dependency_update ids))
    qt

/-- `unnest_query` from `main.rs`.  The global `NEXT_ID` counter is threaded
explicitly (its value is `1000` at process start). -/
def unnest_query (query : RelNode) (counter : Nat) : RelNode × Nat :=
  let tree := QueryTree.new query
  let relations := tree.identify_dependent_joins
  let tree2 := tree.apply_dependencies relations
  let root_node := tree2.root
  let r := process_node root_node none [] counter
  (r.1, r.2.2.2)

/-! ## Observations used by the claims -/

/-- Does a tree contain some `Join` with `is_dependent == true`? -/
def contains_dependent_join : RelNode → Bool
  | .Table _ _ _ => false
  | .Select _ _ input => contains_dependent_join input
  | .Map _ _ input => contains_dependent_join input
  | .GroupBy _ _ _ input => contains_dependent_join input
  | .Join _ l r _ d _ =>
      d || contains_dependent_join l || contains_dependent_join r

/-- The node ids of a tree, in preorder, with multiplicity. -/
def nodeIds : RelNode → List NodeId
  | .Table i _ _ => [i]
  | .Select i _ input => i :: nodeIds input
  | .Map i _ input => i :: nodeIds input
  | .GroupBy i _ _ input => i :: nodeIds input
  | .Join i l r _ _ _ => i :: (nodeIds l ++ nodeIds r)

/-- The key list of a `GroupBy` node (and `[]` on any other node). -/
def group_keys_of : RelNode → List Column
  | .GroupBy _ keys _ _ => keys
  | _ => []

/-- Does an optional node exist and hold a `Select`? -/
def is_select_node : Option RelNode → Bool
  | some (.Select _ _ _) => true
  | _ => false

/-- The predicates of the `Select` nodes that the accessing ids resolve to,
in accessing order. -/
def select_preds (node : RelNode) (accessing : List NodeId) : List Expr :=
  accessing.filterMap (fun accId =>
    match find_node_by_id_mut node accId with
    | some (.Select _ predicate _) => some predicate
    | _ => none)

/-- Modelled from the spec: "the producer of a column is the *first* node
encountered (top-down) that introduces it" — the spec-side reading of the
provider map, to be compared against `build_column_providers`. -/
def first_provider (t : RelNode) (col : Column) : Option NodeId :=
  ((provider_insertions t).find? (fun p => decide (p.1 = col))).map (fun p => p.2)

/-- The last binding of a key in an association list (the value a `HashMap`
holds after replaying the insertions in order). -/
def last_assoc {β : Type} : List (Column × β) → Column → Option β
  | [], _ => none
  | (k, v) :: rest, c =>
      match last_assoc rest c with
      | some w => some w
      | none => if k = c then some v else none

/-! ## Concrete plans used by counterexamples and witnesses -/

/-- `R.x`. -/
def colRx : Column := Column.new "R" "x"

/-- `S.y`. -/
def colSy : Column := Column.new "S" "y"

/-- The output column of the aggregate in the general-path examples. -/
def colAgg : Column := Column.new "agg" "cnt"

/-- A dependent join with an empty accessing set and no correlation at all:
`R ⋈(dependent) S` with condition `true`. -/
def c1_tree : RelNode :=
  .Join 1 (.Table 2 "R" ["x"]) (.Table 3 "S" ["y"]) (.Constant "true") true []

/-- A dependent join whose right side is a `GroupBy` aggregating the outer
column `R.x`; discovery marks the root join as accessing node 3, simple
unnesting fails (node 3 is not a `Select`), and the general path synthesizes a
domain `Map` and a domain `Join`. -/
def cex_general_tree : RelNode :=
  .Join 1 (.Table 2 "R" ["x"])
    (.GroupBy 3 [] [(colAgg, .Sum (.ColumnRef colRx))] (.Table 4 "S" ["y"]))
    (.Constant "true") true []

/-- `t.A`, `t.B`, `t.C` for the equivalence-resolution claims. -/
def colA : Column := Column.new "t" "A"

def colB : Column := Column.new "t" "B"

def colC : Column := Column.new "t" "C"

/-- A context whose equivalence classes come from the predicate
`A = B AND B = C` and whose only outer reference is `A`. -/
def c8_info : UnnestingInfo :=
  .mk [colA] none
    (add_equivalences_from_expr
      (.And (.Equal (.ColumnRef colA) (.ColumnRef colB))
        (.Equal (.ColumnRef colB) (.ColumnRef colC))) [])
    [] none

/-- An ancestor `Map` (id 1) and a descendant `Table` (id 2) both introducing
the column `T.x`. -/
def c9_tree : RelNode :=
  .Map 1 [(Column.new "T" "x", .Constant "1")] (.Table 2 "T" ["x"])

/-- `T.x`. -/
def colTx : Column := Column.new "T" "x"

/-- The general-path plan used to exhibit the silent handling of an
unresolvable outer reference (`T.a` has an empty equivalence class). -/
def c10_tree : RelNode :=
  .Join 7 (.Table 8 "T" ["a"])
    (.GroupBy 9 [] [(Column.new "agg" "s", .Sum (.ColumnRef (Column.new "T" "a")))]
      (.Table 10 "U" ["b"]))
    (.Constant "true") true []

/-- What `unnest_query c10_tree 2000` actually returns: the domain-join
condition is the bare `Constant "true"` (the unresolved outer reference `T.a`
contributed no equality), and the aggregate still references `T.a`, which no
node under the `GroupBy` produces. -/
def c10_expected : RelNode :=
  .Join 7 (.Table 8 "T" ["a"])
    (.Join 2002
      (.Map 2001 [(Column.new "T" "a", .ColumnRef (Column.new "T" "a"))]
        (.Table 8 "T" ["a"]))
      (.GroupBy 9 []
        [(Column.new "agg" "s", .Sum (.ColumnRef (Column.new "T" "a")))]
        (.Table 10 "U" ["b"]))
      (.Constant "true") false [])
    (.Constant "true") false []

/-! ## Claim C1 -/

/-- Claim C1, counterexample: `unnest_query` does NOT clear the dependence
flag of every dependent join — on `c1_tree` (a dependent join whose accessing
set stays empty because there is no correlation) the output still contains a
`Join` with `is_dependent == true`. -/
theorem unnest_query_output_can_contain_dependent_join :
    contains_dependent_join (unnest_query c1_tree 1000).1 = true := by decide

/-- Claim C1, amended: `process_node` clears the dependence flag only of
dependent joins whose accessing set is non-empty; a dependent `Join` whose
accessing set is empty is processed by the ordinary-join branch and keeps
`is_dependent == true` in the output. -/
theorem process_node_keeps_flag_on_empty_accessing (id : NodeId)
    (l r : RelNode) (cond : Expr) (p : Option UnnestingInfo)
    (a : List Column) (c : Nat) :
    ((process_node (.Join id l r cond true []) p a c).1).is_dependent_join = true := rfl

/-! ## Claim C5 -/

/-- Claim C5, counterexample: `unnest_query` is not a pure deterministic
function of its input — two consecutive invocations on the same input differ,
because the global id counter advanced while domain nodes were minted. -/
theorem unnest_query_consecutive_calls_differ :
    (unnest_query cex_general_tree ((unnest_query cex_general_tree 1000).2)).1 ≠
      (unnest_query cex_general_tree 1000).1 := by decide

/-! ## Claim C6 -/

/-- Claim C6, counterexample: the output tree's node ids need not be unique
even when the input ids are — the synthesized domain `Map` contains a copy of
the left subtree, so the left subtree's ids occur twice in the output. -/
theorem unnest_query_output_ids_not_unique :
    (nodeIds cex_general_tree).Nodup ∧
      ¬ (nodeIds ((unnest_query cex_general_tree 1000).1)).Nodup := by decide

/-! ## Claim C8 -/

/-- Claim C8, counterexample: equivalence resolution is NOT transitive.  With
`A = B` and `B = C` registered and only `C` available, the outer reference `A`
does not resolve at all (the claim predicts it resolves to a member of
`{A,B,C} ∩ {C} = {C}`). -/
theorem replacement_mapping_not_transitive :
    alookup (create_replacement_mappings c8_info [colC]).repr colA = none := by
  decide

/-! ## Claim C9 -/

/-- Claim C9, counterexample: the column-to-producer map does NOT record the
first node encountered top-down.  In `c9_tree` the `Map` (id 1) is encountered
before the `Table` (id 2), both introduce `T.x`, and the map records 2. -/
theorem column_provider_records_last_not_first :
    build_column_providers c9_tree colTx = some 2 ∧
      first_provider c9_tree colTx = some 1 := by decide

/-! ## Claim C10 -/

/-- Claim C10, evaluation at the failing input: the rewrite does NOT report a
planning failure when an outer reference cannot be resolved.  On `c10_tree`
the outer reference `T.a` has an empty equivalence class, so the
representation map stays empty; `process_node` nevertheless returns normally
(it has no error channel at all), the synthesized domain-join condition is the
bare `Constant "true"` — the outer reference was silently dropped from it —
and the correlated reference `T.a` is left in the rewritten aggregate. -/
theorem unresolved_outer_reference_silently_dropped :
    (unnest_query c10_tree 2000).1 = c10_expected := by decide

/-! ## Basic lemmas about the embedded operations -/

theorem alookup_append {β : Type} (xs ys : List (Column × β)) (c : Column) :
    alookup (xs ++ ys) c =
      match alookup xs c with
      | some v => some v
      | none => alookup ys c := by
  induction xs with
  | nil => rfl
  | cons p rest ih =>
      obtain ⟨k, v⟩ := p
      by_cases h : k = c <;> simp [alookup, h, ih]

/-! ## Claim C2: the lemmas behind `try_simple_unnesting` -/

theorem collect_predicates_of_selects (node : RelNode) (accessing : List NodeId)
    (h : ∀ aid ∈ accessing, is_select_node (find_node_by_id_mut node aid) = true) :
    collect_predicates node accessing = some (select_preds node accessing) := by
  induction accessing with
  | nil => rfl
  | cons aid rest ih =>
      have hhead := h aid (by simp)
      have hrest := ih (fun x hx => h x (by simp [hx]))
      cases hfind : find_node_by_id_mut node aid with
      | none => rw [hfind] at hhead; simp [is_select_node] at hhead
      | some n =>
          rw [hfind] at hhead
          cases n with
          | Select sid pred inp =>
              simp [collect_predicates, select_preds, hfind, hrest,
                List.filterMap_cons]
          | Table i nm cols => simp [is_select_node] at hhead
          | Map i m inp => simp [is_select_node] at hhead
          | GroupBy i k a inp => simp [is_select_node] at hhead
          | Join i l r cnd d acc => simp [is_select_node] at hhead

theorem select_preds_cons_of_select (node : RelNode) (aid : NodeId)
    (rest : List NodeId)
    (h : is_select_node (find_node_by_id_mut node aid) = true) :
    ∃ pred, select_preds node (aid :: rest) = pred :: select_preds node rest := by
  cases hfind : find_node_by_id_mut node aid with
  | none => rw [hfind] at h; simp [is_select_node] at h
  | some n =>
      rw [hfind] at h
      cases n with
      | Select sid pred inp =>
          exact ⟨pred, by simp [select_preds, List.filterMap_cons, hfind]⟩
      | Table i nm cols => simp [is_select_node] at h
      | Map i m inp => simp [is_select_node] at h
      | GroupBy i k a inp => simp [is_select_node] at h
      | Join i l r cnd d acc => simp [is_select_node] at h

/-- Claim C2: for a dependent join with a non-empty accessing set all of whose
named nodes resolve to `Select` nodes in the right subtree, `process_node`
takes the simple-unnesting path: its output is the join with the condition
conjoined (via `And`) with those `Select` predicates, `is_dependent == false`,
an empty accessing set, and the two children rewritten recursively — in
particular no domain `Map` or domain `Join` is synthesized for this join. -/
theorem simple_unnesting_conjoins_select_predicates (id : NodeId)
    (l r : RelNode) (cond : Expr) (accessing : List NodeId)
    (p : Option UnnestingInfo) (a : List Column) (c : Nat)
    (hacc : accessing ≠ [])
    (hsel : ∀ aid ∈ accessing, is_select_node (find_node_by_id_mut r aid) = true) :
    process_node (.Join id l r cond true accessing) p a c =
      (RelNode.Join id (process_node l p a c).1
          (process_node r p a (process_node l p a c).2.2.2).1
          ((select_preds r accessing).foldl Expr.And cond) false [],
        merge_unnesting_info (process_node l p a c).2.1
          (process_node r p a (process_node l p a c).2.2.2).2.1,
        unionCols (process_node r p a (process_node l p a c).2.2.2).2.2.1
          (process_node l p a c).2.2.1,
        (process_node r p a (process_node l p a c).2.2.2).2.2.2) := by
  obtain ⟨aid, rest, rfl⟩ : ∃ aid rest, accessing = aid :: rest := by
    cases accessing with
    | nil => exact absurd rfl hacc
    | cons x xs => exact ⟨x, xs, rfl⟩
  have hcp := collect_predicates_of_selects r (aid :: rest) hsel
  obtain ⟨pred, hps⟩ := select_preds_cons_of_select r aid rest (hsel aid (by simp))
  have hne : (select_preds r (aid :: rest)).isEmpty = false := by
    rw [hps]; rfl
  have htsu : try_simple_unnesting r (aid :: rest) cond =
      some ((select_preds r (aid :: rest)).foldl Expr.And cond) := by
    rw [try_simple_unnesting, hcp]
    simp [hne]
  simp only [process_node, List.isEmpty_cons, Bool.not_false, Bool.and_self, htsu,
    if_true]

/-! ## Claim C3: the lemmas behind the `GroupBy` key-appending loop -/

theorem mem_resolved_key_step (rp : List (Column × Column)) (ks : List Column)
    (col x : Column) (hx : x ∈ ks) : x ∈ resolved_key_step rp ks col := by
  rw [resolved_key_step]
  cases alookup rp col with
  | none => exact hx
  | some newCol =>
      by_cases h : newCol ∈ ks <;> simp [h, hx]

theorem mem_append_resolved_keys_of_mem (o : List Column)
    (rp : List (Column × Column)) :
    ∀ (ks : List Column) (x : Column), x ∈ ks →
      x ∈ append_resolved_keys o rp ks := by
  induction o with
  | nil => intro ks x hx; exact hx
  | cons col rest ih =>
      intro ks x hx
      rw [append_resolved_keys, List.foldl_cons]
      exact ih (resolved_key_step rp ks col) x (mem_resolved_key_step rp ks col x hx)

theorem mem_append_resolved_keys (o : List Column) (rp : List (Column × Column))
    (col sub : Column) (hcol : col ∈ o) (hres : alookup rp col = some sub) :
    ∀ ks : List Column, sub ∈ append_resolved_keys o rp ks := by
  induction o with
  | nil => cases hcol
  | cons c0 rest ih =>
      intro ks
      rw [append_resolved_keys, List.foldl_cons]
      rcases List.mem_cons.mp hcol with rfl | hmem
      · apply mem_append_resolved_keys_of_mem
        rw [resolved_key_step, hres]
        by_cases h : sub ∈ ks <;> simp [h]
      · exact ih hmem (resolved_key_step rp ks c0)

/-- Claim C3: after `process_node` rewrites a `GroupBy`, every outer-referenced
column of the returned context that has a resolved substitute in the
representation map has that substitute present in the rewritten key list. -/
theorem groupby_keeps_resolved_outer_columns (id : NodeId) (keys : List Column)
    (aggregates : List (Column × Expr)) (input : RelNode)
    (p : Option UnnestingInfo) (a : List Column) (c : Nat) (col sub : Column)
    (hout : col ∈
      ((process_node (.GroupBy id keys aggregates input) p a c).2.1).outer_refs)
    (hres : alookup
      ((process_node (.GroupBy id keys aggregates input) p a c).2.1).repr col =
        some sub) :
    sub ∈ group_keys_of ((process_node (.GroupBy id keys aggregates input) p a c).1) := by
  simp only [process_node, group_keys_of] at hout hres ⊢
  exact mem_append_resolved_keys _ _ col sub hout hres _

/-! ## Claim C8: single-step resolution lemmas -/

theorem alookup_foldl_replacement_step (cc : List (Column × List Column))
    (av : List Column) (o : List Column) :
    ∀ (rp : List (Column × Column)) (col sub : Column),
      alookup (o.foldl (replacement_step cc av) rp) col = some sub →
      alookup rp col = some sub ∨
        ∃ cls, alookup cc col = some cls ∧ sub ∈ cls ∧ sub ∈ av := by
  induction o with
  | nil => intro rp col sub h; exact Or.inl h
  | cons c0 rest ih =>
      intro rp col sub h
      rw [List.foldl_cons] at h
      rcases ih _ col sub h with h1 | h2
      · rw [replacement_step] at h1
        by_cases hskip : (alookup rp c0).isSome
        · rw [if_pos hskip] at h1
          exact Or.inl h1
        · rw [if_neg hskip] at h1
          cases hcc : alookup cc c0 with
          | none => rw [hcc] at h1; exact Or.inl h1
          | some equivalents =>
              rw [hcc] at h1
              dsimp only at h1
              cases hfind : equivalents.find? (fun e => elemCol e av) with
              | none => rw [hfind] at h1; exact Or.inl h1
              | some e =>
                  rw [hfind] at h1
                  rw [alookup_append] at h1
                  cases hrp : alookup rp col with
                  | some v => rw [hrp] at h1; exact Or.inl h1
                  | none =>
                      rw [hrp] at h1
                      by_cases hc : c0 = col
                      · rw [alookup, if_pos hc] at h1
                        subst hc
                        refine Or.inr ⟨equivalents, hcc, ?_, ?_⟩
                        · rw [← Option.some_inj.mp h1]
                          exact List.mem_of_find?_eq_some hfind
                        · rw [← Option.some_inj.mp h1]
                          have := List.find?_some hfind
                          exact of_decide_eq_true this
                      · rw [alookup, if_neg hc] at h1
                        cases h1
      · exact Or.inr h2

/-- Claim C8, amended: resolution is single-step, not transitive.  Any entry of
the representation map produced by `create_replacement_mappings` is either an
entry that was already present, or maps an outer column to a column DIRECTLY
registered in its equivalence-class entry and available at that point. -/
theorem replacement_mapping_single_step (info : UnnestingInfo)
    (av : List Column) (col sub : Column)
    (h : alookup (create_replacement_mappings info av).repr col = some sub) :
    alookup info.repr col = some sub ∨
      ∃ cls, alookup info.cclasses col = some cls ∧ sub ∈ cls ∧ sub ∈ av := by
  cases info with
  | mk o d cc rp par =>
      simp only [create_replacement_mappings, UnnestingInfo.repr,
        UnnestingInfo.cclasses] at h ⊢
      exact alookup_foldl_replacement_step cc av o rp col sub h

/-- Claim C8, witness for the amended theorem: with `A = B` registered and `B`
available, `A` resolves, and the resolution comes from `A`'s own class. -/
theorem replacement_mapping_single_step_witness :
    alookup
        (create_replacement_mappings
          (.mk [colA] none [(colA, [colB])] [] none) [colB]).repr colA =
      some colB ∧
      (alookup (UnnestingInfo.mk [colA] none [(colA, [colB])] [] none).repr colA =
          some colB ∨
        ∃ cls,
          alookup (UnnestingInfo.mk [colA] none [(colA, [colB])] [] none).cclasses
              colA = some cls ∧ colB ∈ cls ∧ colB ∈ [colB]) :=
  ⟨by decide,
    replacement_mapping_single_step (.mk [colA] none [(colA, [colB])] [] none)
      [colB] colA colB (by decide)⟩

/-! ## Claim C9: the provider map records the last introducer -/

theorem foldl_update_eq_last_assoc {β : Type} (l : List (Column × β)) :
    ∀ (m : Column → Option β) (col : Column),
      (l.foldl (fun m p => fun c => if c = p.1 then some p.2 else m c) m) col =
        match last_assoc l col with
        | some v => some v
        | none => m col := by
  induction l with
  | nil => intro m col; rfl
  | cons p rest ih =>
      obtain ⟨k, v⟩ := p
      intro m col
      rw [List.foldl_cons, ih, last_assoc]
      cases h : last_assoc rest col with
      | some w => rfl
      | none =>
          by_cases hc : k = col
          · subst hc
            simp
          · have hc2 : ¬col = k := fun hh => hc hh.symm
            simp [hc, hc2]

/-- Claim C9, amended: the `column_providers` map of the query-tree index
assigns to every column the LAST node encountered in the top-down (preorder)
traversal that introduces it — a deeper node that re-introduces a column
overwrites its ancestor's entry. -/
theorem column_provider_is_last_preorder_introducer (t : RelNode) (col : Column) :
    build_column_providers t col = last_assoc (provider_insertions t) col := by
  rw [build_column_providers, foldl_update_eq_last_assoc]
  cases h : last_assoc (provider_insertions t) col <;> simp

/-! ## Claim C4: mutations through the node map reach the root only at the root -/

theorem mutate_node_root (qt : QueryTree) (i : NodeId) (f : RelNode → RelNode) :
    (qt.mutate_node i f).root =
      match qt.cells i with
      | some .aliasRoot => f qt.root
      | _ => qt.root := by
  rw [QueryTree.mutate_node]
  cases h : qt.cells i with
  | none => simp
  | some cell => cases cell <;> simp

theorem apply_dependency_update_of_not_dependent (ids : List NodeId)
    (n : RelNode) (h : n.is_dependent_join = false) :
    apply_dependency_update ids n = n := by
  cases n with
  | Join id l r cond d acc =>
      cases d with
      | true => simp [RelNode.is_dependent_join] at h
      | false => rfl
  | Table id nm cols => rfl
  | Select id pr inp => rfl
  | Map id m inp => rfl
  | GroupBy id k a inp => rfl

theorem apply_dependencies_root_eq (qt : QueryTree)
    (relations : List (NodeId × NodeId)) (h : qt.root.is_dependent_join = false) :
    (qt.apply_dependencies relations).root = qt.root := by
  rw [QueryTree.apply_dependencies]
  generalize ((relations.map (fun p => p.1)).foldl insertId []) = lcas
  induction lcas generalizing qt with
  | nil => rfl
  | cons lca rest ih =>
      rw [List.foldl_cons]
      rw [ih]
      · rw [mutate_node_root]
        cases hc : qt.cells lca with
        | none => rfl
        | some cell =>
            cases cell with
            | aliasRoot => exact apply_dependency_update_of_not_dependent _ _ h
            | snap n => rfl
      · rw [mutate_node_root]
        cases hc : qt.cells lca with
        | none => exact h
        | some cell =>
            cases cell with
            | aliasRoot => rw [apply_dependency_update_of_not_dependent _ _ h]; exact h
            | snap n => exact h

/-- Claim C4: because `build_maps` wraps every non-root node in a freshly
created cell, the mutations `apply_dependencies` performs through `find_node`
are visible through the tree's root only when the mutated node IS the root.
For every input whose dependent joins all lie strictly below the root (the
root is not a dependent join), the root read back after `apply_dependencies`
is exactly the unchanged input, so the rewrite phase launched by
`unnest_query` runs on the input tree with its original (unpopulated)
accessing sets. -/
theorem apply_dependencies_leaves_nonroot_accessing_unseen (t : RelNode)
    (c : Nat) (h : t.is_dependent_join = false) :
    ((QueryTree.new t).apply_dependencies
        ((QueryTree.new t).identify_dependent_joins)).root = t ∧
      unnest_query t c =
        ((process_node t none [] c).1, (process_node t none [] c).2.2.2) := by
  have hroot :
      ((QueryTree.new t).apply_dependencies
        ((QueryTree.new t).identify_dependent_joins)).root = t :=
    apply_dependencies_root_eq (QueryTree.new t) _ h
  refine ⟨hroot, ?_⟩
  simp only [unnest_query, hroot]

/-- Claim C4, witness: a plan whose only dependent join sits strictly below
the root (under a `Select`). -/
theorem apply_dependencies_leaves_nonroot_accessing_unseen_witness :
    ((RelNode.Select 20 (.Constant "true")
        (.Join 21 (.Table 22 "R" ["x"]) (.Table 23 "S" ["y"]) (.Constant "true")
          true [])).is_dependent_join = false) ∧
      (((QueryTree.new (RelNode.Select 20 (.Constant "true")
          (.Join 21 (.Table 22 "R" ["x"]) (.Table 23 "S" ["y"]) (.Constant "true")
            true []))).apply_dependencies
          ((QueryTree.new (RelNode.Select 20 (.Constant "true")
            (.Join 21 (.Table 22 "R" ["x"]) (.Table 23 "S" ["y"]) (.Constant "true")
              true []))).identify_dependent_joins)).root =
        RelNode.Select 20 (.Constant "true")
          (.Join 21 (.Table 22 "R" ["x"]) (.Table 23 "S" ["y"]) (.Constant "true")
            true []) ∧
        unnest_query (RelNode.Select 20 (.Constant "true")
            (.Join 21 (.Table 22 "R" ["x"]) (.Table 23 "S" ["y"]) (.Constant "true")
              true [])) 1000 =
          ((process_node (RelNode.Select 20 (.Constant "true")
              (.Join 21 (.Table 22 "R" ["x"]) (.Table 23 "S" ["y"]) (.Constant "true")
                true [])) none [] 1000).1,
            (process_node (RelNode.Select 20 (.Constant "true")
              (.Join 21 (.Table 22 "R" ["x"]) (.Table 23 "S" ["y"]) (.Constant "true")
                true [])) none [] 1000).2.2.2)) :=
  ⟨by decide,
    apply_dependencies_leaves_nonroot_accessing_unseen _ 1000 (by decide)⟩

/-! ## Witnesses for claims C2 and C3 -/

/-- Left child of the C2 witness join. -/
def c2_left : RelNode := .Table 2 "R" ["x"]

/-- Right child of the C2 witness join: the accessed node 5 is a `Select`. -/
def c2_right : RelNode :=
  .Select 5 (.Equal (.ColumnRef colSy) (.ColumnRef colRx)) (.Table 4 "S" ["y"])

/-- Claim C2, witness: the simple-unnesting theorem applied to a concrete
dependent join accessing one `Select` node. -/
theorem simple_unnesting_conjoins_select_predicates_witness :
    (([5] : List NodeId) ≠ [] ∧
      ∀ aid ∈ ([5] : List NodeId),
        is_select_node (find_node_by_id_mut c2_right aid) = true) ∧
      process_node (.Join 1 c2_left c2_right (.Constant "true") true [5])
          none [] 1000 =
        (RelNode.Join 1 (process_node c2_left none [] 1000).1
            (process_node c2_right none [] (process_node c2_left none [] 1000).2.2.2).1
            ((select_preds c2_right [5]).foldl Expr.And (.Constant "true")) false [],
          merge_unnesting_info (process_node c2_left none [] 1000).2.1
            (process_node c2_right none [] (process_node c2_left none [] 1000).2.2.2).2.1,
          unionCols
            (process_node c2_right none [] (process_node c2_left none [] 1000).2.2.2).2.2.1
            (process_node c2_left none [] 1000).2.2.1,
          (process_node c2_right none [] (process_node c2_left none [] 1000).2.2.2).2.2.2) :=
  ⟨⟨by decide, by decide⟩,
    simple_unnesting_conjoins_select_predicates 1 c2_left c2_right
      (.Constant "true") [5] none [] 1000 (by decide) (by decide)⟩

/-- The enclosing correlated scope of the C3 witness: outer reference `R.x`,
equivalence class `R.x ~ S.y`. -/
def c3_parent_info : UnnestingInfo := .mk [colRx] none [(colRx, [colSy])] [] none

/-- Claim C3, witness: decorrelating a `GroupBy` under a scope that resolves
`R.x` to `S.y` leaves `S.y` in the rewritten key list. -/
theorem groupby_keeps_resolved_outer_columns_witness :
    (colRx ∈
        ((process_node (.GroupBy 3 [] [(colAgg, .Count)] (.Table 4 "S" ["y"]))
          (some c3_parent_info) [] 1000).2.1).outer_refs ∧
      alookup
          ((process_node (.GroupBy 3 [] [(colAgg, .Count)] (.Table 4 "S" ["y"]))
            (some c3_parent_info) [] 1000).2.1).repr colRx = some colSy) ∧
      colSy ∈ group_keys_of
        ((process_node (.GroupBy 3 [] [(colAgg, .Count)] (.Table 4 "S" ["y"]))
          (some c3_parent_info) [] 1000).1) :=
  ⟨⟨by decide, by decide⟩,
    groupby_keeps_resolved_outer_columns 3 [] [(colAgg, .Count)]
      (.Table 4 "S" ["y"]) (some c3_parent_info) [] 1000 colRx colSy
      (by decide) (by decide)⟩

/-! ## Claims C5 and C7: the rewrite is the identity on plans without
dependent joins -/

/-- A context is trivial when it demands no outer references and has resolved
nothing: such contexts never change any expression. -/
def good_info (i : UnnestingInfo) : Prop := i.outer_refs = [] ∧ i.repr = []

/-- Triviality of an optional enclosing context. -/
def good_opt : Option UnnestingInfo → Prop
  | none => True
  | some i => good_info i

theorem rewrite_expr_nil (e : Expr) : rewrite_expr e [] = e := by
  induction e <;> simp [rewrite_expr, alookup, *]

theorem map_rewrite_nil (l : List (Column × Expr)) :
    l.map (fun p => (p.1, rewrite_expr p.2 [])) = l := by
  induction l with
  | nil => rfl
  | cons p rest ih => obtain ⟨k, v⟩ := p; simp [rewrite_expr_nil, ih]

theorem substitute_keys_nil (keys : List Column) : substitute_keys keys [] = keys := by
  simp [substitute_keys, alookup]

theorem with_cclasses_outer_refs (i : UnnestingInfo) (cc : List (Column × List Column)) :
    (i.with_cclasses cc).outer_refs = i.outer_refs := by
  cases i; rfl

theorem with_cclasses_repr (i : UnnestingInfo) (cc : List (Column × List Column)) :
    (i.with_cclasses cc).repr = i.repr := by
  cases i; rfl

theorem merge_equivalence_classes_outer_refs (x y : UnnestingInfo) :
    (merge_equivalence_classes x y).outer_refs = x.outer_refs := by
  cases x; rfl

theorem merge_equivalence_classes_repr (x y : UnnestingInfo) :
    (merge_equivalence_classes x y).repr = x.repr := by
  cases x; rfl

theorem create_replacement_mappings_of_outer_nil (i : UnnestingInfo)
    (av : List Column) (h : i.outer_refs = []) :
    create_replacement_mappings i av = i := by
  cases i with
  | mk o d cc rp par =>
      simp only [UnnestingInfo.outer_refs] at h
      subst h
      rfl

theorem merge_unnesting_info_of_left_nil (l r : UnnestingInfo)
    (h : l.outer_refs = []) : merge_unnesting_info l r = r := by
  cases l with
  | mk o d cc rp par =>
      simp only [UnnestingInfo.outer_refs] at h
      subst h
      rfl

theorem new_outer_refs (o : List Column) (d : Option RelNode) :
    (UnnestingInfo.new o d).outer_refs = o := rfl

theorem new_repr (o : List Column) (d : Option RelNode) :
    (UnnestingInfo.new o d).repr = [] := rfl

theorem process_node_identity (t : RelNode) :
    ∀ (p : Option UnnestingInfo) (a : List Column) (c : Nat),
      contains_dependent_join t = false → good_opt p →
      (process_node t p a c).1 = t ∧ good_info (process_node t p a c).2.1 ∧
        (process_node t p a c).2.2.2 = c := by
  induction t with
  | Table id name columns =>
      intro p a c ht hp
      cases p with
      | none => exact ⟨rfl, ⟨rfl, rfl⟩, rfl⟩
      | some q => exact ⟨rfl, hp, rfl⟩
  | Select id pred input ih =>
      intro p a c ht hp
      rw [contains_dependent_join] at ht
      cases p with
      | none =>
          have hgood1 : good_info ((UnnestingInfo.new [] none).with_cclasses
              (add_equivalences_from_expr pred (UnnestingInfo.new [] none).cclasses)) :=
            ⟨rfl, rfl⟩
          obtain ⟨hr1, hr2, hr3⟩ := ih (some ((UnnestingInfo.new [] none).with_cclasses
              (add_equivalences_from_expr pred (UnnestingInfo.new [] none).cclasses)))
            a c ht hgood1
          refine ⟨?_, ?_, ?_⟩ <;>
            simp [process_node, hr1, hr3, good_info,
              merge_equivalence_classes_outer_refs, merge_equivalence_classes_repr,
              with_cclasses_outer_refs, with_cclasses_repr,
              create_replacement_mappings_of_outer_nil, rewrite_expr_nil,
              new_outer_refs, new_repr]
      | some q =>
          obtain ⟨hq1, hq2⟩ := hp
          have hgood1 : good_info (q.with_cclasses
              (add_equivalences_from_expr pred q.cclasses)) := by
            constructor
            · rw [with_cclasses_outer_refs]; exact hq1
            · rw [with_cclasses_repr]; exact hq2
          obtain ⟨hr1, hr2, hr3⟩ := ih (some (q.with_cclasses
              (add_equivalences_from_expr pred q.cclasses))) a c ht hgood1
          refine ⟨?_, ?_, ?_⟩ <;>
            simp [process_node, hr1, hr3, good_info, hq1, hq2,
              merge_equivalence_classes_outer_refs, merge_equivalence_classes_repr,
              with_cclasses_outer_refs, with_cclasses_repr,
              create_replacement_mappings_of_outer_nil, rewrite_expr_nil,
              new_outer_refs, new_repr]
  | Map id mappings input ih =>
      intro p a c ht hp
      rw [contains_dependent_join] at ht
      obtain ⟨hr1, hr2, hr3⟩ := ih p a c ht hp
      cases p with
      | none =>
          refine ⟨?_, ?_, ?_⟩ <;>
            simp [process_node, hr1, hr3, good_info, hr2.1, hr2.2,
              create_replacement_mappings_of_outer_nil, map_rewrite_nil,
              new_outer_refs, new_repr]
      | some q =>
          obtain ⟨hq1, hq2⟩ := hp
          refine ⟨?_, ?_, ?_⟩ <;>
            simp [process_node, hr1, hr3, good_info, hq1, hq2,
              create_replacement_mappings_of_outer_nil, map_rewrite_nil,
              new_outer_refs, new_repr]
  | GroupBy id keys aggs input ih =>
      intro p a c ht hp
      rw [contains_dependent_join] at ht
      cases p with
      | none =>
          obtain ⟨hr1, hr2, hr3⟩ := ih (some (UnnestingInfo.new [] none)) a c ht ⟨rfl, rfl⟩
          refine ⟨?_, ?_, ?_⟩ <;>
            simp [process_node, hr1, hr3, good_info,
              merge_equivalence_classes_outer_refs, merge_equivalence_classes_repr,
              create_replacement_mappings_of_outer_nil, map_rewrite_nil,
              substitute_keys_nil, append_resolved_keys, new_outer_refs, new_repr]
      | some q =>
          obtain ⟨hq1, hq2⟩ := hp
          obtain ⟨hr1, hr2, hr3⟩ := ih (some q) a c ht ⟨hq1, hq2⟩
          refine ⟨?_, ?_, ?_⟩ <;>
            simp [process_node, hr1, hr3, good_info, hq1, hq2,
              merge_equivalence_classes_outer_refs, merge_equivalence_classes_repr,
              create_replacement_mappings_of_outer_nil, map_rewrite_nil,
              substitute_keys_nil, append_resolved_keys, new_outer_refs, new_repr]
  | Join id l r cond d acc ihl ihr =>
      intro p a c ht hp
      rw [contains_dependent_join] at ht
      simp only [Bool.or_eq_false_iff] at ht
      obtain ⟨⟨hd, hcl⟩, hcr⟩ := ht
      subst hd
      obtain ⟨hL1, hL2, hL3⟩ := ihl p a c hcl hp
      obtain ⟨hR1, hR2, hR3⟩ := ihr p a c hcr hp
      refine ⟨?_, ?_, ?_⟩ <;>
        simp [process_node, hL1, hL3, hR1, hR3, good_info, hL2.1, hR2.1, hR2.2,
          merge_unnesting_info_of_left_nil, rewrite_expr_nil, new_outer_refs, new_repr]

/-- The root of a tree with no dependent joins is not a dependent join. -/
theorem root_not_dependent_of_contains_false (t : RelNode)
    (h : contains_dependent_join t = false) : t.is_dependent_join = false := by
  cases t with
  | Join id l r cond d acc =>
      rw [contains_dependent_join] at h
      simp only [Bool.or_eq_false_iff] at h
      exact h.1.1
  | Table id nm cols => rfl
  | Select id pr inp => rfl
  | Map id m inp => rfl
  | GroupBy id k a inp => rfl

/-- On a plan with no dependent joins, `unnest_query` returns the input tree
and leaves the id counter untouched. -/
theorem unnest_query_identity (t : RelNode) (c : Nat)
    (h : contains_dependent_join t = false) : unnest_query t c = (t, c) := by
  have hroot :
      ((QueryTree.new t).apply_dependencies
        ((QueryTree.new t).identify_dependent_joins)).root = t :=
    apply_dependencies_root_eq (QueryTree.new t) _
      (root_not_dependent_of_contains_false t h)
  obtain ⟨h1, _h2, h3⟩ :=
    process_node_identity t none [] c h trivial
  simp only [unnest_query, hroot]
  rw [h1, h3]

/-- Claim C7: on an input containing no `Join` with `is_dependent == true`,
the rewrite is the identity — `unnest_query` returns a tree structurally
identical to the input (same kinds, ids, predicates, mappings, keys,
aggregates and join conditions, nothing added or removed), and the id counter
is untouched. -/
theorem unnest_query_identity_on_independent_plans (t : RelNode) (c : Nat)
    (h : contains_dependent_join t = false) : unnest_query t c = (t, c) :=
  unnest_query_identity t c h

/-- An independent join over a correlated-looking but independent `Select`. -/
def c7_tree : RelNode :=
  .Join 30 (.Table 31 "R" ["x"])
    (.Select 32 (.Equal (.ColumnRef colRx) (.ColumnRef colSy)) (.Table 33 "S" ["y"]))
    (.Constant "true") false []

/-- Claim C7, witness. -/
theorem unnest_query_identity_on_independent_plans_witness :
    contains_dependent_join c7_tree = false ∧
      unnest_query c7_tree 1000 = (c7_tree, 1000) :=
  ⟨by decide, unnest_query_identity_on_independent_plans c7_tree 1000 (by decide)⟩

/-- Claim C5, amended: `unnest_query` is deterministic only as a function of
the input together with the global id-counter state.  Two consecutive
invocations in the same process agree on inputs containing no dependent joins
(no ids are minted), but in general differ in the freshly minted ids. -/
theorem unnest_query_consecutive_calls_agree_without_dependent_joins
    (t : RelNode) (c : Nat) (h : contains_dependent_join t = false) :
    (unnest_query t ((unnest_query t c).2)).1 = (unnest_query t c).1 := by
  simp [unnest_query_identity t c h]

/-- A plan without dependent joins for the C5 witness. -/
def c5_tree : RelNode := .Table 50 "T" ["z"]

/-- Claim C5, witness for the amended theorem. -/
theorem unnest_query_consecutive_calls_agree_witness :
    contains_dependent_join c5_tree = false ∧
      (unnest_query c5_tree ((unnest_query c5_tree 1000).2)).1 =
        (unnest_query c5_tree 1000).1 :=
  ⟨by decide,
    unnest_query_consecutive_calls_agree_without_dependent_joins c5_tree 1000
      (by decide)⟩

theorem new_domain (o : List Column) (d : Option RelNode) :
    (UnnestingInfo.new o d).domain = d := rfl

theorem with_parent_domain (i q : UnnestingInfo) :
    (i.with_parent q).domain = i.domain := by cases i; rfl

theorem with_cclasses_domain (i : UnnestingInfo) (cc : List (Column × List Column)) :
    (i.with_cclasses cc).domain = i.domain := by cases i; rfl

theorem crm_domain (i : UnnestingInfo) (av : List Column) :
    (create_replacement_mappings i av).domain = i.domain := by cases i; rfl

theorem process_node_counter_le (t : RelNode) :
    ∀ (p : Option UnnestingInfo) (a : List Column) (c : Nat),
      c ≤ (process_node t p a c).2.2.2 := by
  induction t with
  | Table id name columns => intro p a c; exact le_rfl
  | Select id pred input ih =>
      intro p a c
      simp only [process_node]
      exact ih _ a c
  | Map id mappings input ih =>
      intro p a c
      simp only [process_node]
      exact ih p a c
  | GroupBy id keys aggs input ih =>
      intro p a c
      simp only [process_node]
      exact ih _ a c
  | Join id l r cond d acc ihl ihr =>
      intro p a c
      cases hguard : d && !acc.isEmpty with
      | false =>
          simp only [process_node, hguard, Bool.false_eq_true, if_false]
          exact le_trans (ihl p a c) (ihr p a _)
      | true =>
          cases htsu : try_simple_unnesting r acc cond with
          | some nc =>
              simp only [process_node, hguard, if_true, htsu]
              exact le_trans (ihl p a c) (ihr p a _)
          | none =>
              cases p with
              | none =>
                  simp only [process_node, hguard, if_true, htsu]
                  by_cases houter :
                      (List.filter (fun col => elemCol col (find_correlation l r).2)
                        (find_correlation l r).1).isEmpty = true
                  · simp only [houter, if_true, crm_domain, with_cclasses_domain,
                      new_domain]
                    exact ihr _ _ c
                  · simp only [houter, if_false, crm_domain, with_cclasses_domain,
                      new_domain]
                    exact le_trans (Nat.le_succ c)
                      (Nat.le_succ_of_le (ihr _ _ (c + 1)))
              | some parent =>
                  simp only [process_node, hguard, if_true, htsu]
                  by_cases houter :
                      (List.filter
                        (fun col => elemCol col
                          (find_correlation (process_node l (some parent) a c).1 r).2)
                        (find_correlation (process_node l (some parent) a c).1 r).1).isEmpty =
                        true
                  · simp only [houter, if_true, crm_domain, with_cclasses_domain,
                      with_parent_domain, new_domain]
                    exact le_trans (ihl (some parent) a c) (ihr _ _ _)
                  · simp only [houter, if_false, crm_domain, with_cclasses_domain,
                      with_parent_domain, new_domain]
                    exact le_trans (ihl (some parent) a c)
                      (le_trans (Nat.le_succ _) (Nat.le_succ_of_le (ihr _ _ _)))

theorem process_node_id_range (t : RelNode) :
    ∀ (p : Option UnnestingInfo) (a : List Column) (c : Nat) (i : NodeId),
      i ∈ nodeIds (process_node t p a c).1 →
      i ∈ nodeIds t ∨ (c < i ∧ i ≤ (process_node t p a c).2.2.2) := by
  induction t with
  | Table id name columns => intro p a c i h; exact Or.inl h
  | Select id pred input ih =>
      intro p a c i h
      simp only [process_node, nodeIds, List.mem_cons] at h ⊢
      rcases h with rfl | h
      · exact Or.inl (Or.inl rfl)
      · rcases ih _ a c i h with h1 | h1
        · exact Or.inl (Or.inr h1)
        · exact Or.inr h1
  | Map id mappings input ih =>
      intro p a c i h
      simp only [process_node, nodeIds, List.mem_cons] at h ⊢
      rcases h with rfl | h
      · exact Or.inl (Or.inl rfl)
      · rcases ih p a c i h with h1 | h1
        · exact Or.inl (Or.inr h1)
        · exact Or.inr h1
  | GroupBy id keys aggs input ih =>
      intro p a c i h
      simp only [process_node, nodeIds, List.mem_cons] at h ⊢
      rcases h with rfl | h
      · exact Or.inl (Or.inl rfl)
      · rcases ih _ a c i h with h1 | h1
        · exact Or.inl (Or.inr h1)
        · exact Or.inr h1
  | Join id l r cond d acc ihl ihr =>
      intro p a c i h
      cases hguard : d && !acc.isEmpty with
      | false =>
          simp only [process_node, hguard, Bool.false_eq_true, if_false, nodeIds,
            List.mem_cons, List.mem_append] at h ⊢
          have hcl := process_node_counter_le l p a c
          have hcr := process_node_counter_le r p a (process_node l p a c).2.2.2
          rcases h with rfl | h | h
          · exact Or.inl (Or.inl rfl)
          · rcases ihl p a c i h with h1 | h1
            · exact Or.inl (Or.inr (Or.inl h1))
            · exact Or.inr ⟨h1.1, le_trans h1.2 hcr⟩
          · rcases ihr p a (process_node l p a c).2.2.2 i h with h1 | h1
            · exact Or.inl (Or.inr (Or.inr h1))
            · exact Or.inr ⟨lt_of_le_of_lt hcl h1.1, h1.2⟩
      | true =>
          cases htsu : try_simple_unnesting r acc cond with
          | some nc =>
              simp only [process_node, hguard, if_true, htsu, nodeIds,
                List.mem_cons, List.mem_append] at h ⊢
              have hcl := process_node_counter_le l p a c
              have hcr := process_node_counter_le r p a
                (process_node l p a c).2.2.2
              rcases h with rfl | h | h
              · exact Or.inl (Or.inl rfl)
              · rcases ihl p a c i h with h1 | h1
                · exact Or.inl (Or.inr (Or.inl h1))
                · exact Or.inr ⟨h1.1, le_trans h1.2 hcr⟩
              · rcases ihr p a (process_node l p a c).2.2.2 i h with h1 | h1
                · exact Or.inl (Or.inr (Or.inr h1))
                · exact Or.inr ⟨lt_of_le_of_lt hcl h1.1, h1.2⟩
          | none =>
              cases p with
              | none =>
                  simp only [process_node, hguard, if_true, htsu] at h ⊢
                  by_cases houter :
                      (List.filter (fun col => elemCol col (find_correlation l r).2)
                        (find_correlation l r).1).isEmpty = true
                  · simp only [houter, if_true, crm_domain, with_cclasses_domain,
                      new_domain, decorrelate_node, nodeIds, List.mem_cons,
                      List.mem_append] at h ⊢
                    rcases h with rfl | h | h
                    · exact Or.inl (Or.inl rfl)
                    · exact Or.inl (Or.inr (Or.inl h))
                    · rcases ihr _ a c i h with h1 | h1
                      · exact Or.inl (Or.inr (Or.inr h1))
                      · exact Or.inr h1
                  · simp only [houter, if_false, crm_domain, with_cclasses_domain,
                      new_domain, decorrelate_node, create_domain_node, nodeIds,
                      List.mem_cons, List.mem_append] at h ⊢
                    rcases h with rfl | h | rfl | (rfl | h) | h
                    · exact Or.inl (Or.inl rfl)
                    · exact Or.inl (Or.inr (Or.inl h))
                    · exact Or.inr ⟨Nat.lt_succ_of_le
                        (le_trans (Nat.le_succ c)
                          (process_node_counter_le r _ a (c + 1))),
                        le_refl _⟩
                    · exact Or.inr ⟨Nat.lt_succ_self c,
                        Nat.succ_le_succ (le_trans (Nat.le_succ c)
                          (process_node_counter_le r _ a (c + 1)))⟩
                    · exact Or.inl (Or.inr (Or.inl h))
                    · rcases ihr _ a (c + 1) i h with h1 | h1
                      · exact Or.inl (Or.inr (Or.inr h1))
                      · exact Or.inr ⟨lt_of_le_of_lt (Nat.le_succ c) h1.1,
                          Nat.le_succ_of_le h1.2⟩
              | some parent =>
                  simp only [process_node, hguard, if_true, htsu] at h ⊢
                  by_cases houter :
                      (List.filter
                        (fun col => elemCol col
                          (find_correlation (process_node l (some parent) a c).1 r).2)
                        (find_correlation (process_node l (some parent) a c).1 r).1).isEmpty =
                        true
                  · simp only [houter, if_true, crm_domain, with_cclasses_domain,
                      with_parent_domain, new_domain, decorrelate_node, nodeIds,
                      List.mem_cons, List.mem_append] at h ⊢
                    rcases h with rfl | h | h
                    · exact Or.inl (Or.inl rfl)
                    · rcases ihl (some parent) a c i h with h1 | h1
                      · exact Or.inl (Or.inr (Or.inl h1))
                      · exact Or.inr ⟨h1.1,
                          le_trans h1.2 (process_node_counter_le r _ _ _)⟩
                    · rcases ihr _ _ (process_node l (some parent) a c).2.2.2 i h with
                        h1 | h1
                      · exact Or.inl (Or.inr (Or.inr h1))
                      · exact Or.inr ⟨lt_of_le_of_lt
                          (process_node_counter_le l (some parent) a c) h1.1, h1.2⟩
                  · simp only [houter, if_false, crm_domain, with_cclasses_domain,
                      with_parent_domain, new_domain, decorrelate_node,
                      create_domain_node, nodeIds, List.mem_cons,
                      List.mem_append] at h ⊢
                    rcases h with rfl | h | rfl | (rfl | h) | h
                    · exact Or.inl (Or.inl rfl)
                    · rcases ihl (some parent) a c i h with h1 | h1
                      · exact Or.inl (Or.inr (Or.inl h1))
                      · exact Or.inr ⟨h1.1,
                          Nat.le_succ_of_le (le_trans (le_trans h1.2 (Nat.le_succ _))
                            (process_node_counter_le r _ _ _))⟩
                    · exact Or.inr ⟨Nat.lt_succ_of_le
                        (le_trans (process_node_counter_le l (some parent) a c)
                          (le_trans (Nat.le_succ _)
                            (process_node_counter_le r _ _ _))),
                        le_refl _⟩
                    · exact Or.inr ⟨Nat.lt_succ_of_le
                        (process_node_counter_le l (some parent) a c),
                        Nat.le_succ_of_le (process_node_counter_le r _ _ _)⟩
                    · rcases ihl (some parent) a c i h with h1 | h1
                      · exact Or.inl (Or.inr (Or.inl h1))
                      · exact Or.inr ⟨h1.1,
                          Nat.le_succ_of_le (le_trans (le_trans h1.2 (Nat.le_succ _))
                            (process_node_counter_le r _ _ _))⟩
                    · rcases ihr _ _ ((process_node l (some parent) a c).2.2.2 + 1) i h with
                        h1 | h1
                      · exact Or.inl (Or.inr (Or.inr h1))
                      · exact Or.inr ⟨lt_of_le_of_lt
                          (le_trans (process_node_counter_le l (some parent) a c)
                            (Nat.le_succ _)) h1.1,
                          Nat.le_succ_of_le h1.2⟩

/-- `apply_dependency_update` only changes an accessing set, never node ids. -/
theorem apply_dependency_update_nodeIds (ids : List NodeId) (n : RelNode) :
    nodeIds (apply_dependency_update ids n) = nodeIds n := by
  cases n with
  | Join id l r cond d acc => cases d <;> rfl
  | Table id nm cols => rfl
  | Select id pr inp => rfl
  | Map id m inp => rfl
  | GroupBy id k a inp => rfl

/-- `apply_dependencies` never changes the node ids of the root. -/
theorem apply_dependencies_root_nodeIds (qt : QueryTree)
    (relations : List (NodeId × NodeId)) :
    nodeIds (qt.apply_dependencies relations).root = nodeIds qt.root := by
  rw [QueryTree.apply_dependencies]
  generalize ((relations.map (fun p => p.1)).foldl insertId []) = lcas
  induction lcas generalizing qt with
  | nil => rfl
  | cons lca rest ih =>
      rw [List.foldl_cons, ih]
      rw [mutate_node_root]
      cases hc : qt.cells lca with
      | none => rfl
      | some cell =>
          cases cell with
          | aliasRoot => exact apply_dependency_update_nodeIds _ _
          | snap n => rfl

/-- Claim C6, amended: every id present in the output of `unnest_query` is
either an id of the input tree or a freshly minted id strictly above the
incoming counter value; when every input id is at most the counter, minted ids
therefore never collide with input ids.  (Output ids are NOT unique in
general: the counterexample shows the domain `Map` repeats the ids of the
left subtree it copies.) -/
theorem unnest_query_fresh_ids_above_counter (t : RelNode) (c : Nat)
    (h : ∀ i ∈ nodeIds t, i ≤ c) :
    ∀ i ∈ nodeIds (unnest_query t c).1,
      i ∈ nodeIds t ∨ (c < i ∧ i ∉ nodeIds t) := by
  intro i hi
  simp only [unnest_query] at hi
  have hids : nodeIds
      ((QueryTree.new t).apply_dependencies
        ((QueryTree.new t).identify_dependent_joins)).root = nodeIds t :=
    apply_dependencies_root_nodeIds _ _
  rcases process_node_id_range _ none [] c i hi with h1 | h1
  · exact Or.inl (hids ▸ h1)
  · exact Or.inr ⟨h1.1, fun hmem =>
      absurd (Nat.lt_of_lt_of_le h1.1 (h i hmem)) (Nat.lt_irrefl c)⟩

/-- Claim C6, witness for the amended theorem. -/
theorem unnest_query_fresh_ids_above_counter_witness :
    (∀ i ∈ nodeIds cex_general_tree, i ≤ 1000) ∧
      ∀ i ∈ nodeIds (unnest_query cex_general_tree 1000).1,
        i ∈ nodeIds cex_general_tree ∨ (1000 < i ∧ i ∉ nodeIds cex_general_tree) :=
  ⟨by decide, unnest_query_fresh_ids_above_counter cex_general_tree 1000 (by decide)⟩

end Unnesting
